import Mathlib

/-!
Verification of the parallel-block copy engine (`src/drivers/parblock.rs`)
of the `xcp` file copier, as a shallow embedding in Lean.

Machine integers (`u64`) are modelled as `Nat`; all subtractions that occur
in the embedded code are performed on domains where the Rust originals do
not underflow, so truncated `Nat` subtraction agrees with `u64` arithmetic
there.  Fallible operations are modelled with `Except`.  External `libfs`
primitives (`try_reflink`, `probably_sparse`, `map_extents`, `merge_extents`,
`copy_file_offset`) are not part of this crate's sources; where a claim
depends on them they are modelled from the specification and marked as such.
-/

namespace Parblock

/-- Error taxonomy of the engine (`XcpError` in `src/errors.rs`, as used by
`parblock.rs`); paths are modelled as lists of components. -/
inductive XcpError where
  | CopyError (msg : String)
  | DestinationExists (path : List String)
  | UnknownFileType (path : List String)
  | InvalidSource (msg : String)
deriving DecidableEq, Repr

/-- `StatusUpdate` messages sent over the fan-in status channel
(`src/operations.rs`, consumed in `parblock.rs`). -/
inductive StatusUpdate where
  | Copied (n : Nat)
  | Size (n : Nat)
  | Error (e : XcpError)
deriving DecidableEq, Repr

/-- One block copy task queued on the pool by `queue_file_range`
(`parblock.rs` lines 105-122): a byte offset and a byte count. -/
structure BlockTask where
  off : Nat
  bytes : Nat
deriving DecidableEq, Repr

/-- Number of loop iterations of `queue_file_range`:
`(len / bsize) + (if len % bsize > 0 { 1 } else { 0 })` (line 103). -/
def numBlocks (len bsize : Nat) : Nat :=
  len / bsize + (if len % bsize > 0 then 1 else 0)

/-- The block tasks submitted by `queue_file_range` for the range
`[rstart, rend)`: task `blkn` has
`off = range.start + blkn * bsize` and
`bytes = min(len - blkn * bsize, bsize)` (lines 105-109). -/
def blockTasks (rstart rend bsize : Nat) : List BlockTask :=
  (List.range (numBlocks (rend - rstart) bsize)).map fun blkn =>
    { off := rstart + blkn * bsize
      bytes := min ((rend - rstart) - blkn * bsize) bsize }

/-- `queue_file_range` (lines 95-125): submits the block tasks for the
range and returns `Ok(len)` with `len = range.end - range.start`.  Modelled
as the pair (submitted tasks, returned length). -/
def queue_file_range (rstart rend bsize : Nat) : List BlockTask × Nat :=
  (blockTasks rstart rend bsize, rend - rstart)

/-- Result of the `copy_file_offset` call of one block task, as observed by
the task body (lines 112-121): either the byte count written or an error
message. -/
def taskStatus (res : BlockTask → Except String Nat) (t : BlockTask) :
    StatusUpdate :=
  match res t with
  | .ok n => .Copied n
  | .error e => .Error (.CopyError e)

/-- Bytes reported by a single status update (`Copied(n)` counts `n`). -/
def copiedBytes : StatusUpdate → Nat
  | .Copied n => n
  | _ => 0

/-- Total of all `Copied` updates in a status stream. -/
def copiedSum (l : List StatusUpdate) : Nat :=
  (l.map copiedBytes).sum

/-- Map congruence on the members of a list. -/
lemma listMapCongr {α β : Type} (l : List α) (f g : α → β)
    (h : ∀ a ∈ l, f a = g a) : l.map f = l.map g := by
  induction l with
  | nil => rfl
  | cons a l ih =>
    simp only [List.map_cons]
    rw [h a (List.mem_cons_self a l), ih (fun b hb => h b (List.mem_cons_of_mem a hb))]

/-- Every loop index of `queue_file_range` starts strictly inside the range. -/
lemma blk_mul_lt (len bsize blkn : Nat) (hb : 0 < bsize)
    (hblk : blkn < numBlocks len bsize) : blkn * bsize < len := by
  have hdm := Nat.div_add_mod len bsize
  have hmod := Nat.mod_lt len hb
  unfold numBlocks at hblk
  rcases Nat.eq_zero_or_pos (len % bsize) with h | h
  · rw [h] at hblk hdm
    simp only [gt_iff_lt, Nat.lt_irrefl, if_false, Nat.add_zero] at hblk
    have h2 : blkn + 1 ≤ len / bsize := hblk
    have h3 : (blkn + 1) * bsize ≤ (len / bsize) * bsize := Nat.mul_le_mul_right bsize h2
    have h4 : (len / bsize) * bsize = bsize * (len / bsize) := Nat.mul_comm _ _
    have h5 : (blkn + 1) * bsize = blkn * bsize + bsize := Nat.succ_mul blkn bsize
    omega
  · rw [if_pos h] at hblk
    have h2 : blkn ≤ len / bsize := by omega
    have h3 : blkn * bsize ≤ (len / bsize) * bsize := Nat.mul_le_mul_right bsize h2
    have h4 : (len / bsize) * bsize = bsize * (len / bsize) := Nat.mul_comm _ _
    omega

/-- The blocks of `queue_file_range` cover at least `len` bytes. -/
lemma len_le_numBlocks_mul (len bsize : Nat) (hb : 0 < bsize) :
    len ≤ numBlocks len bsize * bsize := by
  have hdm := Nat.div_add_mod len bsize
  have hmod := Nat.mod_lt len hb
  unfold numBlocks
  rcases Nat.eq_zero_or_pos (len % bsize) with h | h
  · rw [h]
    simp only [gt_iff_lt, Nat.lt_irrefl, if_false, Nat.add_zero]
    have h4 : (len / bsize) * bsize = bsize * (len / bsize) := Nat.mul_comm _ _
    omega
  · rw [if_pos h]
    have h4 : (len / bsize + 1) * bsize = bsize * (len / bsize) + bsize := by ring
    omega

/-- The loop count of `queue_file_range` is the ceiling of `len / bsize`. -/
lemma numBlocks_eq_ceil (len bsize : Nat) (hb : 0 < bsize) :
    numBlocks len bsize = (len + bsize - 1) / bsize := by
  have hub := len_le_numBlocks_mul len bsize hb
  have hlb2 : numBlocks len bsize * bsize < len + bsize := by
    rcases Nat.eq_zero_or_pos (numBlocks len bsize) with hz | hp
    · rw [hz, Nat.zero_mul]
      omega
    · have h1 := blk_mul_lt len bsize (numBlocks len bsize - 1) hb (by omega)
      have h3 : numBlocks len bsize - 1 + 1 = numBlocks len bsize := by omega
      have h2 : (numBlocks len bsize - 1 + 1) * bsize
          = (numBlocks len bsize - 1) * bsize + bsize := Nat.succ_mul _ _
      rw [h3] at h2
      omega
  symm
  apply Nat.div_eq_of_lt_le
  · omega
  · have h2 : (numBlocks len bsize + 1) * bsize
        = numBlocks len bsize * bsize + bsize := Nat.succ_mul _ _
    omega

/-- Any byte `x` of `[rstart, rend)` is covered by a submitted block task. -/
lemma blockTasks_cover (rstart rend bsize x : Nat) (hb : 0 < bsize)
    (h1 : rstart ≤ x) (h2 : x < rend) :
    ∃ t ∈ blockTasks rstart rend bsize, t.off ≤ x ∧ x < t.off + t.bytes := by
  have hk : x - rstart < rend - rstart := by omega
  refine ⟨{ off := rstart + ((x - rstart) / bsize) * bsize
            bytes := min ((rend - rstart) - ((x - rstart) / bsize) * bsize) bsize },
          ?_, ?_, ?_⟩
  · apply List.mem_map.mpr
    refine ⟨(x - rstart) / bsize, List.mem_range.mpr ?_, rfl⟩
    have h3 : x - rstart < numBlocks (rend - rstart) bsize * bsize :=
      lt_of_lt_of_le hk (len_le_numBlocks_mul _ _ hb)
    exact (Nat.div_lt_iff_lt_mul hb).mpr h3
  · have h4 : ((x - rstart) / bsize) * bsize ≤ x - rstart := Nat.div_mul_le_self _ _
    simp only []
    omega
  · have hdm2 : ((x - rstart) / bsize) * bsize + (x - rstart) % bsize = x - rstart := by
      rw [Nat.mul_comm]
      exact Nat.div_add_mod _ _
    have hm : (x - rstart) % bsize < bsize := Nat.mod_lt _ hb
    simp only []
    rcases Nat.le_total ((rend - rstart) - ((x - rstart) / bsize) * bsize) bsize with hle | hle
    · rw [Nat.min_eq_left hle]
      omega
    · rw [Nat.min_eq_right hle]
      omega

/-- Every submitted block task lies inside `[rstart, rend)`, is nonempty,
and is no larger than `bsize`. -/
lemma blockTasks_mem_bounds (rstart rend bsize : Nat) (t : BlockTask) (hb : 0 < bsize)
    (hab : rstart ≤ rend) (ht : t ∈ blockTasks rstart rend bsize) :
    rstart ≤ t.off ∧ t.off + t.bytes ≤ rend ∧ 0 < t.bytes ∧ t.bytes ≤ bsize := by
  obtain ⟨blkn, hmem, rfl⟩ := List.mem_map.mp ht
  have hblk := List.mem_range.mp hmem
  have h1 := blk_mul_lt (rend - rstart) bsize blkn hb hblk
  have hmin1 : min ((rend - rstart) - blkn * bsize) bsize ≤ (rend - rstart) - blkn * bsize :=
    Nat.min_le_left _ _
  have hmin2 : min ((rend - rstart) - blkn * bsize) bsize ≤ bsize := Nat.min_le_right _ _
  have hminpos : 0 < min ((rend - rstart) - blkn * bsize) bsize :=
    lt_min (by omega) hb
  simp only []
  omega

/-- Block tasks are submitted in strictly ascending offset order. -/
lemma blockTasks_sorted (rstart rend bsize : Nat) (hb : 0 < bsize) :
    (blockTasks rstart rend bsize).Pairwise (fun t1 t2 => t1.off < t2.off) := by
  unfold blockTasks
  rw [List.pairwise_map]
  apply (List.pairwise_lt_range _).imp
  intro a b hab
  have h3 : (a + 1) * bsize ≤ b * bsize := Nat.mul_le_mul_right bsize hab
  have h5 : (a + 1) * bsize = a * bsize + bsize := Nat.succ_mul a bsize
  simp only []
  omega

/-- Distinct block tasks of one range are pairwise disjoint: each earlier
task ends no later than the next begins. -/
lemma blockTasks_disjoint (rstart rend bsize : Nat) (hb : 0 < bsize) :
    (blockTasks rstart rend bsize).Pairwise (fun t1 t2 => t1.off + t1.bytes ≤ t2.off) := by
  unfold blockTasks
  rw [List.pairwise_map]
  apply (List.pairwise_lt_range _).imp
  intro a b hab
  have hmin : min ((rend - rstart) - a * bsize) bsize ≤ bsize := Nat.min_le_right _ _
  have h3 : (a + 1) * bsize ≤ b * bsize := Nat.mul_le_mul_right bsize hab
  have h5 : (a + 1) * bsize = a * bsize + bsize := Nat.succ_mul a bsize
  simp only []
  omega

/-- Every task except the last covers exactly `bsize` bytes. -/
lemma blockTasks_full_bytes (rstart rend bsize i : Nat) (hb : 0 < bsize)
    (h2 : i < (blockTasks rstart rend bsize).length)
    (h : i + 1 < (blockTasks rstart rend bsize).length) :
    ((blockTasks rstart rend bsize).get ⟨i, h2⟩).bytes = bsize := by
  have hlen : (blockTasks rstart rend bsize).length = numBlocks (rend - rstart) bsize := by
    simp [blockTasks]
  have hi1 : i + 1 < numBlocks (rend - rstart) bsize := by omega
  have hfull : (i + 1) * bsize < rend - rstart := blk_mul_lt _ _ _ hb hi1
  have h5 : (i + 1) * bsize = i * bsize + bsize := Nat.succ_mul i bsize
  simp only [blockTasks, List.get_eq_getElem, List.getElem_map, List.getElem_range]
  exact Nat.min_eq_right (by omega)

/-- The bytes of the blocks of one range sum to the range's length. -/
lemma sum_min_blocks (bsize : Nat) (hb : 0 < bsize) :
    ∀ len : Nat,
      (((List.range (numBlocks len bsize)).map
        (fun blkn => min (len - blkn * bsize) bsize)).sum) = len := by
  intro len
  induction len using Nat.strong_induction_on with
  | _ len ih =>
    rcases Nat.eq_zero_or_pos len with h0 | h0
    · subst h0
      simp [numBlocks]
    by_cases hlb : len ≤ bsize
    · have h1 : numBlocks len bsize = 1 := by
        unfold numBlocks
        rcases Nat.eq_or_lt_of_le hlb with he | hlt
        · rw [he, Nat.div_self hb, Nat.mod_self]
          simp
        · rw [Nat.div_eq_of_lt hlt, Nat.mod_eq_of_lt hlt]
          simp [h0]
      rw [h1]
      have hr1 : List.range 1 = [0] := rfl
      rw [hr1]
      simp only [List.map_cons, List.map_nil, List.sum_cons, List.sum_nil,
        Nat.zero_mul, Nat.sub_zero, Nat.add_zero]
      exact Nat.min_eq_left hlb
    · push_neg at hlb
      have hnb : numBlocks len bsize = numBlocks (len - bsize) bsize + 1 := by
        unfold numBlocks
        have h1 : len = (len - bsize) + bsize := by omega
        have hd : len / bsize = (len - bsize) / bsize + 1 := by
          conv_lhs => rw [h1]
          rw [Nat.add_div_right _ hb]
        have hm : len % bsize = (len - bsize) % bsize := by
          conv_lhs => rw [h1]
          rw [Nat.add_mod_right]
        rw [hd, hm]
        by_cases hc : (len - bsize) % bsize > 0 <;> simp [hc] <;> omega
      rw [hnb, List.range_succ_eq_map]
      simp only [List.map_cons, List.map_map, List.sum_cons, Nat.zero_mul,
        Nat.sub_zero]
      have hf0 : min len bsize = bsize := Nat.min_eq_right (Nat.le_of_lt hlb)
      have hcomp : ((List.range (numBlocks (len - bsize) bsize)).map
          ((fun blkn => min (len - blkn * bsize) bsize) ∘ Nat.succ)).sum
          = len - bsize := by
        rw [listMapCongr _ _ (fun blkn => min ((len - bsize) - blkn * bsize) bsize)]
        · exact ih (len - bsize) (by omega)
        · intro a _
          show min (len - Nat.succ a * bsize) bsize
              = min ((len - bsize) - a * bsize) bsize
          congr 1
          have h5 : Nat.succ a * bsize = a * bsize + bsize := Nat.succ_mul a bsize
          omega
      rw [hf0, hcomp]
      omega

/-- The bytes of all tasks of `queue_file_range` sum to `rend - rstart`. -/
lemma blockTasks_sum_bytes (rstart rend bsize : Nat) (hb : 0 < bsize) :
    ((blockTasks rstart rend bsize).map (fun t => t.bytes)).sum = rend - rstart := by
  unfold blockTasks
  rw [List.map_map]
  exact sum_min_blocks bsize hb (rend - rstart)

/-- C1: for every byte range `[a, b)` with `b > a` and power-of-two
`block_size`, `queue_file_range` emits exactly `ceil((b-a)/block_size)`
block tasks in ascending offset order; every task except possibly the
last covers exactly `block_size` bytes, all tasks are nonempty and at
most `block_size`, the tasks are pairwise disjoint, their union is
exactly `[a, b)`, and the function returns `b - a`. -/
theorem queue_file_range_block_plan (a bnd bsize : Nat)
    (hpow : ∃ k, bsize = 2 ^ k) (hab : a < bnd) :
    (queue_file_range a bnd bsize).1.length = (bnd - a + bsize - 1) / bsize ∧
    (queue_file_range a bnd bsize).1.Pairwise (fun t1 t2 => t1.off < t2.off) ∧
    (∀ i (h2 : i < (queue_file_range a bnd bsize).1.length),
      i + 1 < (queue_file_range a bnd bsize).1.length →
      ((queue_file_range a bnd bsize).1.get ⟨i, h2⟩).bytes = bsize) ∧
    (∀ t ∈ (queue_file_range a bnd bsize).1, 0 < t.bytes ∧ t.bytes ≤ bsize) ∧
    (queue_file_range a bnd bsize).1.Pairwise
      (fun t1 t2 => t1.off + t1.bytes ≤ t2.off) ∧
    (∀ x, (∃ t ∈ (queue_file_range a bnd bsize).1, t.off ≤ x ∧ x < t.off + t.bytes)
        ↔ (a ≤ x ∧ x < bnd)) ∧
    (queue_file_range a bnd bsize).2 = bnd - a := by
  obtain ⟨k, hk⟩ := hpow
  have hb : 0 < bsize := by
    rw [hk]
    exact pow_pos (by norm_num) k
  refine ⟨?_, ?_, ?_, ?_, ?_, ?_, rfl⟩
  · have h1 : (blockTasks a bnd bsize).length = numBlocks (bnd - a) bsize := by
      simp [blockTasks]
    show (blockTasks a bnd bsize).length = (bnd - a + bsize - 1) / bsize
    rw [h1, numBlocks_eq_ceil _ _ hb]
  · exact blockTasks_sorted a bnd bsize hb
  · intro i h2 h
    exact blockTasks_full_bytes a bnd bsize i hb h2 h
  · intro t ht
    have hbd := blockTasks_mem_bounds a bnd bsize t hb (Nat.le_of_lt hab) ht
    exact ⟨hbd.2.2.1, hbd.2.2.2⟩
  · exact blockTasks_disjoint a bnd bsize hb
  · intro x
    constructor
    · rintro ⟨t, ht, hx1, hx2⟩
      have hbd := blockTasks_mem_bounds a bnd bsize t hb (Nat.le_of_lt hab) ht
      omega
    · rintro ⟨hx1, hx2⟩
      exact blockTasks_cover a bnd bsize x hb hx1 hx2

/-- Witness for C1 at the concrete range `[2, 13)` with `block_size = 4`. -/
theorem queue_file_range_block_plan_witness :
    ((∃ k, (4:Nat) = 2 ^ k) ∧ (2:Nat) < 13) ∧
    (queue_file_range 2 13 4).1.length = (13 - 2 + 4 - 1) / 4 ∧
    (queue_file_range 2 13 4).2 = 13 - 2 := by
  refine ⟨⟨⟨2, by norm_num⟩, by norm_num⟩, ?_, ?_⟩
  · exact (queue_file_range_block_plan 2 13 4 ⟨2, by norm_num⟩ (by norm_num)).1
  · exact (queue_file_range_block_plan 2 13 4 ⟨2, by norm_num⟩
      (by norm_num)).2.2.2.2.2.2

/-- The block tasks submitted for a whole plan (a list of byte ranges),
in order: `queue_file_blocks` runs `queue_file_range` on each range in
turn (`parblock.rs` lines 155-158). -/
def planTasks (plan : List (Nat × Nat)) (bsize : Nat) : List BlockTask :=
  match plan with
  | [] => []
  | r :: rest => (queue_file_range r.1 r.2 bsize).1 ++ planTasks rest bsize

/-- The status updates produced by the block tasks of a plan, given the
per-task `copy_file_offset` results (`parblock.rs` lines 111-122). -/
def planStatuses (plan : List (Nat × Nat)) (bsize : Nat)
    (res : BlockTask → Except String Nat) : List StatusUpdate :=
  (planTasks plan bsize).map (taskStatus res)

/-- The bytes of all tasks of a plan sum to the plan's total length. -/
lemma planTasks_sum (plan : List (Nat × Nat)) (bsize : Nat) (hb : 0 < bsize) :
    ((planTasks plan bsize).map (fun t => t.bytes)).sum
      = (plan.map fun r => r.2 - r.1).sum := by
  induction plan with
  | nil => rfl
  | cons r rest ih =>
    simp only [planTasks, List.map_append, List.sum_append, List.map_cons,
      List.sum_cons]
    rw [ih]
    congr 1
    exact blockTasks_sum_bytes r.1 r.2 bsize hb

/-- C2: if the block plan of a file of length `len` covers `len` bytes in
total and every block task's `copy_file_offset` succeeds writing its
requested byte count, the `Copied` status updates sum to exactly `len`. -/
theorem copied_sum_eq_len (plan : List (Nat × Nat)) (len bsize : Nat)
    (res : BlockTask → Except String Nat) (hb : 0 < bsize)
    (htot : (plan.map fun r => r.2 - r.1).sum = len)
    (hsucc : ∀ t, res t = Except.ok t.bytes) :
    copiedSum (planStatuses plan bsize res) = len := by
  unfold copiedSum planStatuses
  rw [List.map_map]
  rw [listMapCongr _ _ (fun t => t.bytes)
    (fun t _ => by simp [Function.comp, taskStatus, hsucc t, copiedBytes])]
  rw [planTasks_sum _ _ hb, htot]

/-- Witness for C2 at the concrete plan `[[0,5), [8,18)]`, `len = 15`,
`block_size = 4`, with every task succeeding. -/
theorem copied_sum_eq_len_witness :
    ((0:Nat) < 4 ∧
      ((([(0, 5), (8, 18)] : List (Nat × Nat)).map fun r => r.2 - r.1).sum = 15)) ∧
    copiedSum (planStatuses [(0, 5), (8, 18)] 4 (fun t => Except.ok t.bytes)) = 15 := by
  refine ⟨⟨by norm_num, by decide⟩, ?_⟩
  exact copied_sum_eq_len [(0, 5), (8, 18)] 15 4 (fun t => Except.ok t.bytes)
    (by norm_num) (by decide) (fun t => rfl)

/-- Per-file environment observed by `queue_file_blocks` (`parblock.rs`
lines 127-166): the source length cached in the `CopyHandle`, the number of
allocated 512-byte blocks, whether `try_reflink` succeeds, and the extent
map returned by `map_extents` (`None` when the filesystem gives no useful
answer).  `try_reflink` and `map_extents` live in `libfs`/`CopyHandle`
outside this crate's sources and are modelled as environment fields. -/
structure FileEnv where
  len : Nat
  allocBlocks : Nat
  reflinkOk : Bool
  extents : Option (List (Nat × Nat))
deriving DecidableEq, Repr

/-- Modelled from the spec: `probably_sparse(fd)` of `libfs` is not under
`src/`; §4.A specifies the cheap test `allocated_blocks * 512 <
logical_length`. -/
def probably_sparse (env : FileEnv) : Bool :=
  env.allocBlocks * 512 < env.len

/-- Insert an extent into a list sorted by starting offset. -/
def insertExtent (e : Nat × Nat) : List (Nat × Nat) → List (Nat × Nat)
  | [] => [e]
  | f :: rest => if e.1 ≤ f.1 then e :: f :: rest else f :: insertExtent e rest

/-- Sort extents by starting offset. -/
def sortExtents : List (Nat × Nat) → List (Nat × Nat)
  | [] => []
  | e :: rest => insertExtent e (sortExtents rest)

/-- Coalesce adjacent or overlapping extents of an offset-sorted list. -/
def coalesce : List (Nat × Nat) → List (Nat × Nat)
  | [] => []
  | [e] => [e]
  | e1 :: e2 :: rest =>
    if e2.1 ≤ e1.2 then coalesce ((e1.1, max e1.2 e2.2) :: rest)
    else e1 :: coalesce (e2 :: rest)
termination_by l => l.length
decreasing_by
  all_goals simp
  all_goals omega

/-- Modelled from the spec: `merge_extents` of `libfs` is not under `src/`;
§4.A specifies that it sorts the extents by offset and coalesces
adjacent/overlapping intervals. -/
def merge_extents (es : List (Nat × Nat)) : List (Nat × Nat) :=
  coalesce (sortExtents es)

/-- `queue_file_blocks` (`parblock.rs` lines 127-166): first attempt a
reflink and return the file length on success without queueing anything;
otherwise, if the file is probably sparse and an extent map is available,
hand the merged extents to `queue_file_range` in order, else hand it the
whole file `[0, len)`.  Modelled as the pair (ranges handed to
`queue_file_range`, returned byte count). -/
def queue_file_blocks (env : FileEnv) (bsize : Nat) : List (Nat × Nat) × Nat :=
  if env.reflinkOk then ([], env.len)
  else if probably_sparse env then
    match env.extents with
    | some exts =>
      let sparse_map := merge_extents exts
      (sparse_map, (sparse_map.map fun e => (queue_file_range e.1 e.2 bsize).2).sum)
    | none => ([(0, env.len)], (queue_file_range 0 env.len bsize).2)
  else ([(0, env.len)], (queue_file_range 0 env.len bsize).2)

/-- All block tasks that the plan of one file puts on the pool. -/
def fileTasks (env : FileEnv) (bsize : Nat) : List BlockTask :=
  planTasks (queue_file_blocks env bsize).1 bsize

/-- The status updates sent for one file's block tasks, given the per-task
`copy_file_offset` results. -/
def fileStatuses (env : FileEnv) (bsize : Nat)
    (res : BlockTask → Except String Nat) : List StatusUpdate :=
  (fileTasks env bsize).map (taskStatus res)

/-- C3: `queue_file_blocks` follows the planner algorithm in order: a
successful reflink returns the file length with no queued range; otherwise
with `probably_sparse` and an extent map it queues exactly the merged
extent ranges; otherwise it queues the single range `[0, len)`. -/
theorem queue_file_blocks_planner (env : FileEnv) (bsize : Nat) :
    (env.reflinkOk = true → queue_file_blocks env bsize = ([], env.len)) ∧
    (env.reflinkOk = false → probably_sparse env = true →
      ∀ m, env.extents = some m →
        (queue_file_blocks env bsize).1 = merge_extents m) ∧
    (env.reflinkOk = false →
      (probably_sparse env = false ∨ env.extents = none) →
      (queue_file_blocks env bsize).1 = [(0, env.len)]) := by
  refine ⟨?_, ?_, ?_⟩
  · intro h
    simp [queue_file_blocks, h]
  · intro h hs m hm
    simp [queue_file_blocks, h, hs, hm]
  · intro h hd
    rcases hd with hd | hd
    · simp [queue_file_blocks, h, hd]
    · by_cases hs : probably_sparse env <;>
        simp [queue_file_blocks, h, hs, hd]

/-- Witness for C3 exercising all three planner branches on concrete
environments. -/
theorem queue_file_blocks_planner_witness :
    queue_file_blocks ⟨5, 0, true, none⟩ 4 = ([], 5) ∧
    (queue_file_blocks ⟨100, 0, false, some [(0, 4), (4, 8)]⟩ 4).1
      = merge_extents [(0, 4), (4, 8)] ∧
    (queue_file_blocks ⟨100, 1, false, none⟩ 4).1 = [(0, 100)] := by
  refine ⟨?_, ?_, ?_⟩
  · exact (queue_file_blocks_planner ⟨5, 0, true, none⟩ 4).1 rfl
  · exact (queue_file_blocks_planner ⟨100, 0, false, some [(0, 4), (4, 8)]⟩ 4).2.1
      rfl (by decide) _ rfl
  · exact (queue_file_blocks_planner ⟨100, 1, false, none⟩ 4).2.2
      rfl (Or.inl (by decide))

/-- C10: an empty range `[a, a)` makes `queue_file_range` submit zero block
tasks and return 0; consequently a zero-length regular file that is not
reflinked produces no block tasks and no `Copied` status updates. -/
theorem empty_range_zero_tasks :
    (∀ a bsize : Nat, queue_file_range a a bsize = ([], 0)) ∧
    (∀ (env : FileEnv) (bsize : Nat) (res : BlockTask → Except String Nat),
      env.reflinkOk = false → env.len = 0 →
      fileTasks env bsize = [] ∧
      (queue_file_blocks env bsize).2 = 0 ∧
      fileStatuses env bsize res = []) := by
  constructor
  · intro a bsize
    simp [queue_file_range, blockTasks, numBlocks]
  · intro env bsize res h0 hlen
    have hs : probably_sparse env = false := by
      simp [probably_sparse, hlen]
    have hq : queue_file_blocks env bsize = ([(0, 0)], 0) := by
      simp [queue_file_blocks, h0, hs, hlen, queue_file_range]
    have ht : fileTasks env bsize = [] := by
      simp [fileTasks, hq, planTasks, queue_file_range, blockTasks, numBlocks]
    refine ⟨ht, by rw [hq], by simp [fileStatuses, ht]⟩

/-- Witness for C10 at the concrete empty range `[7, 7)` and a concrete
zero-length non-reflinked file. -/
theorem empty_range_zero_tasks_witness :
    queue_file_range 7 7 4 = ([], 0) ∧
    ((FileEnv.mk 0 0 false none).reflinkOk = false ∧
      (FileEnv.mk 0 0 false none).len = 0) ∧
    fileTasks ⟨0, 0, false, none⟩ 4 = [] :=
  ⟨empty_range_zero_tasks.1 7 4, ⟨rfl, rfl⟩,
    (empty_range_zero_tasks.2 ⟨0, 0, false, none⟩ 4
      (fun t => Except.ok t.bytes) rfl rfl).1⟩

/-- `dispatch_worker` (`parblock.rs` lines 202-226): consumes the queued
file jobs in order and hands each to `queue_file_blocks`; the resulting
status stream is the concatenation of the per-job block-task statuses. -/
def dispatch_worker (jobs : List FileEnv) (bsize : Nat)
    (res : BlockTask → Except String Nat) : List StatusUpdate :=
  match jobs with
  | [] => []
  | env :: rest => fileStatuses env bsize res ++ dispatch_worker rest bsize res

/-- C4 counterexample: for a reflinked job of length 5 the dispatcher emits
no status update at all — in particular no `Copied(5)`. -/
theorem reflinked_no_copied_status :
    dispatch_worker [⟨5, 0, true, none⟩] 4 (fun t => Except.ok t.bytes) = [] ∧
    StatusUpdate.Copied 5 ∉
      dispatch_worker [⟨5, 0, true, none⟩] 4 (fun t => Except.ok t.bytes) := by
  have h : dispatch_worker [⟨5, 0, true, none⟩] 4 (fun t => Except.ok t.bytes) = [] := rfl
  refine ⟨h, ?_⟩
  rw [h]
  exact List.not_mem_nil _

/-- C4 (amended): for every job whose plan is `Reflinked` the dispatcher
emits no status update for that job — `queue_file_blocks` returns the file
length, which the dispatcher discards — and continues with the next job. -/
theorem reflinked_job_no_status (env : FileEnv) (jobs : List FileEnv)
    (bsize : Nat) (res : BlockTask → Except String Nat)
    (h : env.reflinkOk = true) :
    fileStatuses env bsize res = [] ∧
    (queue_file_blocks env bsize).2 = env.len ∧
    dispatch_worker (env :: jobs) bsize res = dispatch_worker jobs bsize res := by
  have h1 : queue_file_blocks env bsize = ([], env.len) := by
    simp [queue_file_blocks, h]
  have h2 : fileStatuses env bsize res = [] := by
    simp [fileStatuses, fileTasks, h1, planTasks]
  exact ⟨h2, by rw [h1], by simp [dispatch_worker, h2]⟩

/-- Witness for the amended C4 at a concrete reflinked job followed by a
plain job. -/
theorem reflinked_job_no_status_witness :
    (FileEnv.mk 5 0 true none).reflinkOk = true ∧
    dispatch_worker [⟨5, 0, true, none⟩, ⟨3, 0, false, none⟩] 4
        (fun t => Except.ok t.bytes)
      = dispatch_worker [⟨3, 0, false, none⟩] 4 (fun t => Except.ok t.bytes) :=
  ⟨rfl, (reflinked_job_no_status ⟨5, 0, true, none⟩ [⟨3, 0, false, none⟩] 4
    (fun t => Except.ok t.bytes) rfl).2.2⟩

/-- The status drain loop of `copy_all` (`parblock.rs` lines 314-324, same
shape in `copy_single_file` lines 182-192): `Copied` increments the
progress bar, `Size` adjusts it, and on `Error` the loop returns the error
at once.  Modelled as (result, final progress count, updates left
unconsumed on the channel). -/
def drainStatus (pb : Nat) :
    List StatusUpdate → Except XcpError Unit × Nat × List StatusUpdate
  | [] => (Except.ok (), pb, [])
  | StatusUpdate.Copied v :: rest => drainStatus (pb + v) rest
  | StatusUpdate.Size _ :: rest => drainStatus pb rest
  | StatusUpdate.Error e :: rest => (Except.error e, pb, rest)

/-- Whether a status update is an `Error`. -/
def isErrorUpdate : StatusUpdate → Bool
  | StatusUpdate.Error _ => true
  | _ => false

/-- C5 counterexample: after the first error the drain loop returns at
once; the update behind the error is left unconsumed, not drained. -/
theorem drain_leaves_rest_unconsumed :
    (drainStatus 0 [StatusUpdate.Error (XcpError.CopyError "io"),
      StatusUpdate.Copied 3]).2.2 ≠ [] := by
  decide

/-- C5 (amended): the drain loop returns the first error received; the
status updates after it — including any further errors — are never
consumed, and the loop stops immediately rather than draining them. -/
theorem drain_returns_first_error (pre post : List StatusUpdate)
    (e : XcpError) (pb : Nat)
    (hpre : ∀ u ∈ pre, isErrorUpdate u = false) :
    drainStatus pb (pre ++ StatusUpdate.Error e :: post)
      = (Except.error e, pb + copiedSum pre, post) := by
  induction pre generalizing pb with
  | nil => simp [drainStatus, copiedSum]
  | cons u rest ih =>
    have hu : isErrorUpdate u = false := hpre u (List.mem_cons_self u rest)
    have hrest : ∀ v ∈ rest, isErrorUpdate v = false :=
      fun v hv => hpre v (List.mem_cons_of_mem u hv)
    cases u with
    | Copied v =>
      simp only [List.cons_append, drainStatus, List.append_eq]
      rw [ih (pb + v) hrest]
      have hcs : copiedSum (StatusUpdate.Copied v :: rest) = v + copiedSum rest := by
        simp [copiedSum, copiedBytes]
      rw [hcs, ← Nat.add_assoc]
    | Size v =>
      simp only [List.cons_append, drainStatus, List.append_eq]
      rw [ih pb hrest]
      have hcs : copiedSum (StatusUpdate.Size v :: rest) = copiedSum rest := by
        simp [copiedSum, copiedBytes]
      rw [hcs]
    | Error e2 =>
      simp [isErrorUpdate] at hu

/-- Witness for the amended C5 at a concrete status stream with one error
followed by a further update. -/
theorem drain_returns_first_error_witness :
    (∀ u ∈ [StatusUpdate.Copied 2, StatusUpdate.Size 9],
      isErrorUpdate u = false) ∧
    drainStatus 0 ([StatusUpdate.Copied 2, StatusUpdate.Size 9] ++
        StatusUpdate.Error (XcpError.CopyError "fail") :: [StatusUpdate.Copied 7])
      = (Except.error (XcpError.CopyError "fail"),
          0 + copiedSum [StatusUpdate.Copied 2, StatusUpdate.Size 9],
          [StatusUpdate.Copied 7]) :=
  ⟨by decide, drain_returns_first_error
    [StatusUpdate.Copied 2, StatusUpdate.Size 9] [StatusUpdate.Copied 7]
    (XcpError.CopyError "fail") 0 (by decide)⟩

/-- Target base resolution of `copy_all` (`parblock.rs` lines 240-250):
paths are modelled as component lists and `dest.join(sourcedir)` appends
the last component of the source.  The code branches on `dest.exists()`
alone; `destIsDir` is carried to state C6 but is not consulted. -/
def target_base (destExists destIsDir : Bool) (dest : List String)
    (sourcedir : String) : List String :=
  if destExists then dest ++ [sourcedir] else dest

/-- C6 counterexample: when `dest` exists but is not a directory the walk
still joins the source basename, although the claim then requires the
target base to be `dest` itself. -/
theorem target_base_file_dest :
    target_base true false ["d"] "s" = ["d", "s"] ∧
    target_base true false ["d"] "s" ≠ ["d"] := by
  constructor
  · rfl
  · decide

/-- C6 (amended): the target base is `dest/basename(source)` if and only
if `dest` exists, regardless of whether it is a directory; otherwise it is
`dest` itself. -/
theorem target_base_iff_dest_exists (destExists destIsDir : Bool)
    (dest : List String) (sourcedir : String) :
    target_base destExists destIsDir dest sourcedir = dest ++ [sourcedir]
      ↔ destExists = true := by
  cases destExists
  · constructor
    · intro h
      simp only [target_base, Bool.false_eq_true, if_false] at h
      have hl := congrArg List.length h
      simp at hl
    · intro h
      exact Bool.noConfusion h
  · simp [target_base]

/-- Witness for the amended C6: an existing destination directory. -/
theorem target_base_iff_dest_exists_witness :
    target_base true true ["d"] "s" = ["d"] ++ ["s"] :=
  (target_base_iff_dest_exists true true ["d"] "s").mpr rfl

/-- A minimal filesystem state: the set of existing paths and the link
text of each symlink, keyed by path. -/
structure FsState where
  paths : List (List String)
  links : List (List String × String)
deriving DecidableEq, Repr

/-- `Path::exists` on the model state. -/
def existsPath (fs : FsState) (p : List String) : Bool :=
  fs.paths.contains p

/-- `read_link`: the link text stored at `p`, if any. -/
def readlink (fs : FsState) (p : List String) : Option String :=
  (fs.links.find? fun l => l.1 == p).map fun l => l.2

/-- `std::os::unix::fs::symlink(text, target)`: fails (EEXIST) when the
target already exists, otherwise records the new link. -/
def symlink_create (fs : FsState) (text : String) (target : List String) :
    Except Unit FsState :=
  if existsPath fs target then Except.error ()
  else Except.ok { paths := target :: fs.paths, links := (target, text) :: fs.links }

/-- `create_dir_all(target)`: idempotent creation of the target path. -/
def mkdirAll (fs : FsState) (p : List String) : FsState :=
  if existsPath fs p then fs else { fs with paths := p :: fs.paths }

/-- C7: the walker replicates a symlink by `read_link` on the source
followed by `symlink` with the same link text — the link is a value copied
verbatim, never dereferenced for content — and after a successful creation
`readlink(target)` equals `readlink(source)`. -/
theorem symlink_replicated (fs : FsState) (src target : List String)
    (text : String)
    (hl : readlink fs src = some text)
    (hfree : existsPath fs target = false)
    (hne : src ≠ target) :
    ∃ fs2, symlink_create fs text target = Except.ok fs2 ∧
      readlink fs2 target = some text ∧
      readlink fs2 target = readlink fs2 src := by
  have h2 : readlink ⟨target :: fs.paths, (target, text) :: fs.links⟩ target
      = some text := by
    unfold readlink
    rw [List.find?_cons_of_pos]
    · rfl
    · simp
  have h3 : readlink ⟨target :: fs.paths, (target, text) :: fs.links⟩ src
      = some text := by
    unfold readlink
    rw [List.find?_cons_of_neg]
    · exact hl
    · simp only [beq_iff_eq]
      exact fun hh => hne hh.symm
  refine ⟨⟨target :: fs.paths, (target, text) :: fs.links⟩, ?_, h2, h2.trans h3.symm⟩
  simp [symlink_create, hfree]

/-- Witness for C7 at a concrete one-link filesystem. -/
theorem symlink_replicated_witness :
    (readlink ⟨[["s", "link"]], [(["s", "link"], "x")]⟩ ["s", "link"] = some "x" ∧
     existsPath ⟨[["s", "link"]], [(["s", "link"], "x")]⟩ ["d", "link"] = false ∧
     (["s", "link"] : List String) ≠ ["d", "link"]) ∧
    ∃ fs2, symlink_create ⟨[["s", "link"]], [(["s", "link"], "x")]⟩ "x" ["d", "link"]
        = Except.ok fs2 ∧
      readlink fs2 ["d", "link"] = some "x" ∧
      readlink fs2 ["d", "link"] = readlink fs2 ["s", "link"] :=
  ⟨⟨rfl, rfl, by decide⟩,
    symlink_replicated ⟨[["s", "link"]], [(["s", "link"], "x")]⟩
      ["s", "link"] ["d", "link"] "x" rfl rfl (by decide)⟩

/-- Classification of one tree entry (`FileType` as matched in
`parblock.rs` lines 278-308). -/
inductive EntryKind where
  | file (len : Nat)
  | symlink
  | dir
  | special
  | other
deriving DecidableEq, Repr

/-- One entry of the tree walk with its source path and mirrored target. -/
structure WalkEntry where
  src : List String
  target : List String
  kind : EntryKind
deriving DecidableEq, Repr

/-- State threaded through the walk loop of `copy_all`: the filesystem,
the `CopyOp{from, target}` jobs sent to the dispatcher, and the running
`total` of file lengths. -/
structure WalkState where
  fs : FsState
  jobs : List (List String × List String)
  total : Nat
deriving DecidableEq, Repr

/-- Processing of one tree entry by the walk loop of `copy_all`
(`parblock.rs` lines 255-309): the `no_clobber` existence check precedes
the per-kind dispatch; a `file` emits a job and adds its length to the
total; a symlink is read and re-created with its creation result discarded
(`let _r = symlink(&lfile, &target)`, line 291); a directory (and a
special node) materialises the target; an unknown type aborts. -/
def processEntry (noClobber : Bool) (st : WalkState) (e : WalkEntry) :
    Except XcpError WalkState :=
  if noClobber && existsPath st.fs e.target then
    Except.error (XcpError.DestinationExists e.target)
  else
    match e.kind with
    | EntryKind.file len =>
      Except.ok { st with jobs := st.jobs ++ [(e.src, e.target)],
                          total := st.total + len }
    | EntryKind.symlink =>
      match readlink st.fs e.src with
      | none => Except.error (XcpError.CopyError "read_link")
      | some text =>
        match symlink_create st.fs text e.target with
        | Except.ok fs2 => Except.ok { st with fs := fs2 }
        | Except.error _ => Except.ok st
    | EntryKind.dir => Except.ok { st with fs := mkdirAll st.fs e.target }
    | EntryKind.special => Except.ok { st with fs := mkdirAll st.fs e.target }
    | EntryKind.other => Except.error (XcpError.UnknownFileType e.target)

/-- The walk loop over a list of tree entries: stops at the first entry
whose processing fails, propagating its error. -/
def walkEntries (noClobber : Bool) (st : WalkState) :
    List WalkEntry → Except XcpError WalkState
  | [] => Except.ok st
  | e :: rest =>
    match processEntry noClobber st e with
    | Except.ok st2 => walkEntries noClobber st2 rest
    | Except.error err => Except.error err

/-- The walk of a concatenation runs the first part, then the second from
the reached state. -/
lemma walkEntries_append (noClobber : Bool) (st : WalkState)
    (l1 l2 : List WalkEntry) :
    walkEntries noClobber st (l1 ++ l2)
      = match walkEntries noClobber st l1 with
        | Except.ok st2 => walkEntries noClobber st2 l2
        | Except.error err => Except.error err := by
  induction l1 generalizing st with
  | nil => simp [walkEntries]
  | cons e rest ih =>
    simp only [List.cons_append, walkEntries]
    cases processEntry noClobber st e with
    | ok st2 => exact ih st2
    | error err => rfl

/-- C8: with `no_clobber` set, as soon as the walk reaches an entry whose
mirrored target exists, it aborts with `DestinationExists` naming that
target, and no further entries are processed (the entries after the
offending one do not influence the result). -/
theorem no_clobber_aborts (st st2 : WalkState) (pre : List WalkEntry)
    (e : WalkEntry) (rest : List WalkEntry)
    (hpre : walkEntries true st pre = Except.ok st2)
    (hex : existsPath st2.fs e.target = true) :
    walkEntries true st (pre ++ e :: rest)
      = Except.error (XcpError.DestinationExists e.target) ∧
    ∀ rest2, walkEntries true st (pre ++ e :: rest2)
      = walkEntries true st (pre ++ e :: rest) := by
  have hstep : ∀ r, walkEntries true st (pre ++ e :: r)
      = Except.error (XcpError.DestinationExists e.target) := by
    intro r
    rw [walkEntries_append, hpre]
    show walkEntries true st2 (e :: r) = _
    simp [walkEntries, processEntry, hex]
  exact ⟨hstep rest, fun rest2 => by rw [hstep rest2, hstep rest]⟩

/-- Witness for C8: a one-entry walk whose target already exists. -/
theorem no_clobber_aborts_witness :
    (walkEntries true ⟨⟨[["d", "x"]], []⟩, [], 0⟩ []
        = Except.ok ⟨⟨[["d", "x"]], []⟩, [], 0⟩ ∧
      existsPath (⟨[["d", "x"]], []⟩ : FsState) ["d", "x"] = true) ∧
    walkEntries true ⟨⟨[["d", "x"]], []⟩, [], 0⟩
        [⟨["s", "x"], ["d", "x"], EntryKind.file 3⟩]
      = Except.error (XcpError.DestinationExists ["d", "x"]) :=
  ⟨⟨rfl, rfl⟩,
    (no_clobber_aborts ⟨⟨[["d", "x"]], []⟩, [], 0⟩ ⟨⟨[["d", "x"]], []⟩, [], 0⟩
      [] ⟨["s", "x"], ["d", "x"], EntryKind.file 3⟩ [] rfl rfl).1⟩

/-- C9: when symlink creation at the mirrored target fails (the target
already exists and `no_clobber` is unset), the walker discards the error:
the state is unchanged — the symlink is not reproduced — and the walk
continues with the remaining entries, so the copy can still succeed. -/
theorem symlink_error_discarded (st : WalkState) (e : WalkEntry)
    (rest : List WalkEntry) (text : String)
    (hk : e.kind = EntryKind.symlink)
    (hl : readlink st.fs e.src = some text)
    (hex : existsPath st.fs e.target = true) :
    processEntry false st e = Except.ok st ∧
    walkEntries false st (e :: rest) = walkEntries false st rest := by
  have h1 : processEntry false st e = Except.ok st := by
    simp [processEntry, hk, hl, symlink_create, hex]
  exact ⟨h1, by simp [walkEntries, h1]⟩

/-- Witness for C9 at a concrete state whose target path already exists. -/
theorem symlink_error_discarded_witness :
    ((WalkEntry.mk ["s", "l"] ["d", "l"] EntryKind.symlink).kind
        = EntryKind.symlink ∧
      readlink ⟨[["s", "l"], ["d", "l"]], [(["s", "l"], "x")]⟩ ["s", "l"]
        = some "x" ∧
      existsPath ⟨[["s", "l"], ["d", "l"]], [(["s", "l"], "x")]⟩ ["d", "l"]
        = true) ∧
    processEntry false ⟨⟨[["s", "l"], ["d", "l"]], [(["s", "l"], "x")]⟩, [], 0⟩
        ⟨["s", "l"], ["d", "l"], EntryKind.symlink⟩
      = Except.ok ⟨⟨[["s", "l"], ["d", "l"]], [(["s", "l"], "x")]⟩, [], 0⟩ :=
  ⟨⟨rfl, rfl, rfl⟩,
    (symlink_error_discarded
      ⟨⟨[["s", "l"], ["d", "l"]], [(["s", "l"], "x")]⟩, [], 0⟩
      ⟨["s", "l"], ["d", "l"], EntryKind.symlink⟩ [] "x" rfl rfl rfl).1⟩

end Parblock
